import Mathlib

/-!
Shallow embedding of the httpcontrol Go package: the transient-error
classifier (shouldRetryError), the retry engine (Transport.tries), the
facade (Transport.RoundTrip) together with its deadline-queue bookkeeping
and the body-close path (bodyCloser.Close), the backoff helpers from
retry.go, and a step model of the Close/monitor shutdown handshake.
-/

/-- Model of a Go error value as consumed by shouldRetryError: its
Error() message string, whether its dynamic type implements net.Error,
and in that case the result of its Temporary() method. -/
structure GoErr where
  msg : String
  isNetError : Bool
  temporary : Bool
deriving DecidableEq, Repr

instance : Inhabited GoErr := ⟨⟨"", false, false⟩⟩

/-- The literal table knownFailureSuffixes from httpcontrol.go. -/
def knownFailureSuffixes : List String :=
  ["connection refused",
   "connection reset by peer.",
   "connection timed out.",
   "no such host.",
   "remote error: handshake failure",
   "unexpected EOF."]

/-- Go strings.HasSuffix(s, post), modelled on the character sequence of
the strings (for valid UTF-8 the byte-level suffix test of the Go
standard library coincides with the character-level one). -/
def strEndsWith (s post : String) : Bool :=
  post.data.isSuffixOf s.data

/-- Translation of shouldRetryError (httpcontrol.go): true when the error
is a net.Error whose Temporary() reports true, otherwise true exactly when
its message has one of the known failure suffixes, else false. -/
def shouldRetryError (e : GoErr) : Bool :=
  if e.isNetError && e.temporary then true
  else knownFailureSuffixes.any (fun suf => strEndsWith e.msg suf)

/-- Model of an http.Request as consumed by the retry engine: only the
method is consulted. -/
structure Request where
  method : String
deriving DecidableEq, Repr

/-- Model of an http.Response: its status code and an identifier for the
body, enough to observe that the retry engine passes responses through
unmodified. -/
structure Response where
  status : Nat
  bodyId : Nat
deriving DecidableEq, Repr

/-- Outcome of one underlying exchange, the pair returned by
t.transport.RoundTrip: an optional response and an optional error. -/
structure Exchange where
  resp : Option Response
  err : Option GoErr
deriving DecidableEq, Repr

/-- One invocation of the configured Stats sink, i.e. one call of
Stats.Retry(req, res, try, err) from Transport.tries. -/
structure RetryEvent where
  req : Request
  resp : Option Response
  tryCount : Nat
  err : GoErr
deriving DecidableEq, Repr

/-- Configuration of the Transport relevant to the retry engine:
MaxTries and whether a Stats sink is set (t.Stats != nil). -/
structure TransportCfg where
  maxTries : Nat
  hasStats : Bool
deriving DecidableEq, Repr

/-- Observable result of a run of Transport.tries: the returned response
and error, the number of underlying exchanges performed, and the sequence
of Stats sink invocations in order. -/
structure TriesResult where
  resp : Option Response
  err : Option GoErr
  attempts : Nat
  events : List RetryEvent
deriving DecidableEq, Repr

/-- Translation of Transport.tries (httpcontrol.go). `exch n` is the
outcome of the n-th underlying exchange (the Go code performs exchange
number `try` on the call tries(req, try), starting from 0). The Go
function recurses on try+1 under the guard try < MaxTries; the fuel
argument is the standard bound maxTries + 1 - k for that recursion, so
the fuel-0 branch is never reached from the wrapper below and returns
the same no-retry result shape as the guard-false branch. -/
def triesAux (mT : Nat) (s : Bool) (exch : Nat → Exchange) (req : Request) :
    Nat → Nat → TriesResult
  | 0, k => ⟨(exch k).resp, (exch k).err, 1, []⟩
  | fuel + 1, k =>
    match (exch k).err with
    | some e =>
      if k < mT ∧ req.method = "GET" ∧ shouldRetryError e = true then
        let rest := triesAux mT s exch req fuel (k + 1)
        ⟨rest.resp, rest.err, rest.attempts + 1,
          (if s then [⟨req, (exch k).resp, k, e⟩] else []) ++ rest.events⟩
      else ⟨(exch k).resp, some e, 1, []⟩
    | none => ⟨(exch k).resp, none, 1, []⟩

/-- Transport.tries entered at attempt index k (RoundTrip calls it with
k = 0). -/
def tries (cfg : TransportCfg) (exch : Nat → Exchange) (req : Request)
    (k : Nat) : TriesResult :=
  triesAux cfg.maxTries cfg.hasStats exch req (cfg.maxTries + 1 - k) k

/-- C1: the transient-failure classifier returns true iff the error
exposes a true temporary signal or its textual message ends with one of
exactly the six literal suffixes; every other error yields false. -/
theorem shouldRetryError_iff_temporary_or_suffix (e : GoErr) :
    shouldRetryError e = true ↔
      (e.isNetError = true ∧ e.temporary = true)
      ∨ strEndsWith e.msg "connection refused" = true
      ∨ strEndsWith e.msg "connection reset by peer." = true
      ∨ strEndsWith e.msg "connection timed out." = true
      ∨ strEndsWith e.msg "no such host." = true
      ∨ strEndsWith e.msg "remote error: handshake failure" = true
      ∨ strEndsWith e.msg "unexpected EOF." = true := by
  unfold shouldRetryError knownFailureSuffixes
  simp only [List.any_cons, List.any_nil, Bool.or_false]
  generalize strEndsWith e.msg "connection refused" = b1
  generalize strEndsWith e.msg "connection reset by peer." = b2
  generalize strEndsWith e.msg "connection timed out." = b3
  generalize strEndsWith e.msg "no such host." = b4
  generalize strEndsWith e.msg "remote error: handshake failure" = b5
  generalize strEndsWith e.msg "unexpected EOF." = b6
  by_cases h : (e.isNetError && e.temporary) = true
  · rw [if_pos h]
    simp only [Bool.and_eq_true] at h
    simp [h]
  · rw [if_neg h]
    simp only [Bool.and_eq_true, not_and] at h
    simp only [Bool.or_eq_true]
    constructor
    · intro hb
      right
      exact hb
    · rintro (⟨h1, h2⟩ | hb)
      · exact absurd h2 (h h1)
      · exact hb

theorem triesAux_fuelzero (mT : Nat) (s : Bool) (exch : Nat → Exchange)
    (req : Request) (k : Nat) :
    triesAux mT s exch req 0 k = ⟨(exch k).resp, (exch k).err, 1, []⟩ := rfl

theorem triesAux_none (mT : Nat) (s : Bool) (exch : Nat → Exchange)
    (req : Request) (fuel k : Nat) (h : (exch k).err = none) :
    triesAux mT s exch req (fuel + 1) k = ⟨(exch k).resp, none, 1, []⟩ := by
  simp [triesAux, h]

theorem triesAux_stop (mT : Nat) (s : Bool) (exch : Nat → Exchange)
    (req : Request) (fuel k : Nat) (e : GoErr) (h : (exch k).err = some e)
    (hc : ¬(k < mT ∧ req.method = "GET" ∧ shouldRetryError e = true)) :
    triesAux mT s exch req (fuel + 1) k = ⟨(exch k).resp, some e, 1, []⟩ := by
  simp [triesAux, h, hc]

theorem triesAux_retry (mT : Nat) (s : Bool) (exch : Nat → Exchange)
    (req : Request) (fuel k : Nat) (e : GoErr) (h : (exch k).err = some e)
    (hc : k < mT ∧ req.method = "GET" ∧ shouldRetryError e = true) :
    triesAux mT s exch req (fuel + 1) k =
      ⟨(triesAux mT s exch req fuel (k + 1)).resp,
       (triesAux mT s exch req fuel (k + 1)).err,
       (triesAux mT s exch req fuel (k + 1)).attempts + 1,
       (if s then [⟨req, (exch k).resp, k, e⟩] else []) ++
         (triesAux mT s exch req fuel (k + 1)).events⟩ := by
  simp [triesAux, h, hc]

theorem triesAux_attempts_pos (mT : Nat) (s : Bool) (exch : Nat → Exchange)
    (req : Request) (fuel k : Nat) :
    1 ≤ (triesAux mT s exch req fuel k).attempts := by
  cases fuel with
  | zero => rw [triesAux_fuelzero]
  | succ fuel =>
    cases h : (exch k).err with
    | none => rw [triesAux_none mT s exch req fuel k h]
    | some e =>
      by_cases hc : k < mT ∧ req.method = "GET" ∧ shouldRetryError e = true
      · rw [triesAux_retry mT s exch req fuel k e h hc]; dsimp only; omega
      · rw [triesAux_stop mT s exch req fuel k e h hc]

theorem triesAux_attempts_le (mT : Nat) (s : Bool) (exch : Nat → Exchange)
    (req : Request) (fuel : Nat) :
    ∀ k, k ≤ mT → (triesAux mT s exch req fuel k).attempts ≤ mT + 1 - k := by
  induction fuel with
  | zero => intro k hk; rw [triesAux_fuelzero]; dsimp only; omega
  | succ fuel ih =>
    intro k hk
    cases h : (exch k).err with
    | none => rw [triesAux_none mT s exch req fuel k h]; dsimp only; omega
    | some e =>
      by_cases hc : k < mT ∧ req.method = "GET" ∧ shouldRetryError e = true
      · rw [triesAux_retry mT s exch req fuel k e h hc]
        have := ih (k + 1) (by omega)
        dsimp only
        omega
      · rw [triesAux_stop mT s exch req fuel k e h hc]; dsimp only; omega

/-- C2: for every request and every attempt index k, a further underlying
exchange is performed after the exchange at k iff that exchange returned a
non-nil error, the method is exactly GET, k is strictly below MaxTries,
and the error is classified transient; an exchange that returns without
error (a response with any status code, 5xx included) is final and its
response is returned to the caller of tries unmodified. -/
theorem retry_iff_error_get_undermax_transient (cfg : TransportCfg)
    (exch : Nat → Exchange) (req : Request) (k : Nat) :
    (1 < (tries cfg exch req k).attempts ↔
      ∃ e, (exch k).err = some e ∧ req.method = "GET" ∧ k < cfg.maxTries ∧
        shouldRetryError e = true)
    ∧ ((exch k).err = none →
        tries cfg exch req k = ⟨(exch k).resp, none, 1, []⟩) := by
  unfold tries
  rcases Nat.lt_or_ge cfg.maxTries k with hk | hk
  · have hf : cfg.maxTries + 1 - k = 0 := by omega
    rw [hf, triesAux_fuelzero]
    dsimp only
    constructor
    · constructor
      · intro h; exact absurd h (by omega)
      · rintro ⟨e, _, _, hlt, _⟩; omega
    · intro h; rw [h]
  · have hf : cfg.maxTries + 1 - k = (cfg.maxTries - k) + 1 := by omega
    rw [hf]
    cases h : (exch k).err with
    | none =>
      rw [triesAux_none cfg.maxTries cfg.hasStats exch req _ k h]
      dsimp only
      constructor
      · constructor
        · intro hcontra; exact absurd hcontra (by omega)
        · rintro ⟨e, he, _⟩; exact absurd he (by simp)
      · intro _; rfl
    | some e =>
      by_cases hc : k < cfg.maxTries ∧ req.method = "GET" ∧ shouldRetryError e = true
      · rw [triesAux_retry cfg.maxTries cfg.hasStats exch req _ k e h hc]
        constructor
        · constructor
          · intro _
            exact ⟨e, rfl, hc.2.1, hc.1, hc.2.2⟩
          · intro _
            have := triesAux_attempts_pos cfg.maxTries cfg.hasStats exch req
              (cfg.maxTries - k) (k + 1)
            dsimp only
            omega
        · intro hn; exact absurd hn (by simp)
      · rw [triesAux_stop cfg.maxTries cfg.hasStats exch req _ k e h hc]
        dsimp only
        constructor
        · constructor
          · intro hcontra; exact absurd hcontra (by omega)
          · rintro ⟨e', he', hm, hlt, hr⟩
            injection he' with he'
            subst he'
            exact absurd ⟨hlt, hm, hr⟩ hc
        · intro hn; exact absurd hn (by simp)

/-- The concrete always-failing underlying transport used for the
bound-witnessing run of C3: every exchange fails with an error whose text
ends in "connection refused". -/
def connRefusedErr : GoErr :=
  ⟨"dial tcp 10.0.0.1:80: connection refused", false, false⟩

/-- C3: the retry process performs at most MaxTries + 1 underlying
exchanges for every configuration, request and underlying transport (and
terminates, being a total function); with MaxTries = 3, a GET request and
a transport that always fails with a connection-refused error, exactly 4
underlying exchanges occur and the caller receives that error. -/
theorem attempts_bounded_and_four_on_always_refused :
    (∀ (cfg : TransportCfg) (exch : Nat → Exchange) (req : Request),
      (tries cfg exch req 0).attempts ≤ cfg.maxTries + 1)
    ∧ (tries ⟨3, false⟩ (fun _ => ⟨none, some connRefusedErr⟩) ⟨"GET"⟩ 0).attempts = 4
    ∧ (tries ⟨3, false⟩ (fun _ => ⟨none, some connRefusedErr⟩) ⟨"GET"⟩ 0).err =
        some connRefusedErr := by
  refine ⟨fun cfg exch req => ?_, by decide, by decide⟩
  have := triesAux_attempts_le cfg.maxTries cfg.hasStats exch req
    (cfg.maxTries + 1 - 0) 0 (by omega)
  unfold tries
  omega

theorem triesAux_events_spec (mT : Nat) (exch : Nat → Exchange) (req : Request)
    (fuel : Nat) :
    ∀ k, (triesAux mT true exch req fuel k).events =
      (List.range ((triesAux mT true exch req fuel k).attempts - 1)).map
        (fun j => ⟨req, (exch (k + j)).resp, k + j, (exch (k + j)).err.getD default⟩) := by
  induction fuel with
  | zero =>
    intro k
    rw [triesAux_fuelzero]
    simp
  | succ fuel ih =>
    intro k
    cases h : (exch k).err with
    | none =>
      rw [triesAux_none mT true exch req fuel k h]
      simp
    | some e =>
      by_cases hc : k < mT ∧ req.method = "GET" ∧ shouldRetryError e = true
      · rw [triesAux_retry mT true exch req fuel k e h hc]
        dsimp only
        have hpos := triesAux_attempts_pos mT true exch req fuel (k + 1)
        obtain ⟨m, hm⟩ : ∃ m, (triesAux mT true exch req fuel (k + 1)).attempts = m + 1 :=
          ⟨(triesAux mT true exch req fuel (k + 1)).attempts - 1, by omega⟩
        rw [Nat.add_sub_cancel, hm, List.range_succ_eq_map, List.map_cons, List.map_map]
        have hhead : (⟨req, (exch (k + 0)).resp, k + 0, (exch (k + 0)).err.getD default⟩ :
            RetryEvent) = ⟨req, (exch k).resp, k, e⟩ := by
          simp [h]
        rw [hhead]
        have htail : (fun j => (⟨req, (exch (k + Nat.succ j)).resp, k + Nat.succ j,
              (exch (k + Nat.succ j)).err.getD default⟩ : RetryEvent)) =
            fun j => ⟨req, (exch (k + 1 + j)).resp, k + 1 + j,
              (exch (k + 1 + j)).err.getD default⟩ := by
          funext j
          rw [show k + Nat.succ j = k + 1 + j by omega]
        have := ih (k + 1)
        rw [hm] at this
        simp only [Nat.add_sub_cancel] at this
        simp only [Function.comp_def, htail, ← this]
        rfl
      · rw [triesAux_stop mT true exch req fuel k e h hc]
        simp

theorem triesAux_nostats_eq (mT : Nat) (exch : Nat → Exchange) (req : Request)
    (fuel : Nat) :
    ∀ k, triesAux mT false exch req fuel k =
      ⟨(triesAux mT true exch req fuel k).resp,
       (triesAux mT true exch req fuel k).err,
       (triesAux mT true exch req fuel k).attempts, []⟩ := by
  induction fuel with
  | zero =>
    intro k
    rw [triesAux_fuelzero, triesAux_fuelzero]
  | succ fuel ih =>
    intro k
    cases h : (exch k).err with
    | none =>
      rw [triesAux_none mT false exch req fuel k h, triesAux_none mT true exch req fuel k h]
    | some e =>
      by_cases hc : k < mT ∧ req.method = "GET" ∧ shouldRetryError e = true
      · rw [triesAux_retry mT false exch req fuel k e h hc,
          triesAux_retry mT true exch req fuel k e h hc, ih (k + 1)]
        simp
      · rw [triesAux_stop mT false exch req fuel k e h hc,
          triesAux_stop mT true exch req fuel k e h hc]

/-- C5: with a stats sink configured, the sink is invoked exactly once per
retry and only then — the j-th invocation, made immediately before the
j-th retry, carries the original request, the response and error of the
failed exchange, and that exchange's attempt index (so invocations number
one fewer than the underlying exchanges); with no sink configured there is
no invocation and the run is otherwise identical. -/
theorem stats_invoked_once_per_retry (mT : Nat) (exch : Nat → Exchange)
    (req : Request) (k : Nat) :
    ((tries ⟨mT, true⟩ exch req k).events =
      (List.range ((tries ⟨mT, true⟩ exch req k).attempts - 1)).map
        (fun j => ⟨req, (exch (k + j)).resp, k + j, (exch (k + j)).err.getD default⟩))
    ∧ (tries ⟨mT, false⟩ exch req k).events = []
    ∧ (tries ⟨mT, false⟩ exch req k).resp = (tries ⟨mT, true⟩ exch req k).resp
    ∧ (tries ⟨mT, false⟩ exch req k).err = (tries ⟨mT, true⟩ exch req k).err
    ∧ (tries ⟨mT, false⟩ exch req k).attempts = (tries ⟨mT, true⟩ exch req k).attempts := by
  unfold tries
  refine ⟨triesAux_events_spec mT exch req _ k, ?_, ?_, ?_, ?_⟩ <;>
    rw [triesAux_nostats_eq mT exch req _ k]

/-- A pqueue.Item in the Transport's deadline queue: the identity of the
owning request and its absolute deadline, used as the priority. The heap
is a list of items in slot order; a live item's Index field is its slot,
derived here from position, and -1 once popped or removed. Request ids
identify items uniquely (one live entry per in-flight logical exchange). -/
structure Item where
  id : Nat
  priority : Int
deriving DecidableEq, Repr

instance : Inhabited Item := ⟨⟨0, 0⟩⟩

/-- Priority held at slot i of the heap, defaulting outside the range
(every use below is range-guarded). -/
def prioAt (l : List Item) (i : Nat) : Int :=
  ((l.get? i).getD default).priority

/-- Modelled from the spec: httpcontrol drives its deadline queue through
the external go.pqueue / container/heap code, which is not part of this
repository's sources; per the spec it is an array-backed binary min-heap
whose stored elements track their own slot index, updated on every swap.
swapSlots is that index-updating swap of two slots. -/
def swapSlots (l : List Item) (i j : Nat) : List Item :=
  match l.get? i, l.get? j with
  | some a, some b => (l.set i b).set j a
  | _, _ => l

/-- Modelled from the spec: the sift-up pass restoring min-heap order
after an insertion (container/heap up): the parent of slot j is
(j - 1) / 2 and the walk stops at the root or as soon as order holds.
The fuel bounds the strictly decreasing parent walk and is never
exhausted by the callers below. -/
def siftUp (l : List Item) (j fuel : Nat) : List Item :=
  match fuel with
  | 0 => l
  | fuel + 1 =>
    let i := (j - 1) / 2
    if i = j ∨ ¬(prioAt l j < prioAt l i) then l
    else siftUp (swapSlots l i j) i fuel

/-- Modelled from the spec: the sift-down pass restoring min-heap order
(container/heap down): stop when slot i has no child; otherwise take the
smaller child and swap while order is violated. The fuel bounds the
walk down the tree and is never exhausted by the callers below. -/
def siftDown (l : List Item) (i fuel : Nat) : List Item :=
  match fuel with
  | 0 => l
  | fuel + 1 =>
    let n := l.length
    let c := 2 * i + 1
    if c < n then
      let j := if c + 1 < n ∧ prioAt l (c + 1) < prioAt l c then c + 1 else c
      if prioAt l j < prioAt l i then siftDown (swapSlots l i j) j fuel
      else l
    else l

/-- Modelled from the spec: heap insertion (container/heap Push): append
at the last slot and sift up from there. -/
def heapPush (l : List Item) (it : Item) : List Item :=
  siftUp (l ++ [it]) l.length (l.length + 1)

/-- Modelled from the spec: arbitrary-position removal by handle
(container/heap Remove followed by go.pqueue Pop, which marks the removed
item's Index as -1): swap slot i with the last slot unless it is the last,
drop the last slot, then restore order at i, sifting up when the
sift-down pass did not move anything. -/
def pqRemove (l : List Item) (i : Nat) : List Item :=
  let n := l.length - 1
  if i = n then l.dropLast
  else
    let l2 := (swapSlots l i n).dropLast
    let l3 := siftDown l2 i l2.length
    if l3 = l2 then siftUp l2 i (i + 1) else l3

/-- The Index field of the deadline item of request id, as maintained by
the queue: its current slot while stored, -1 once removed or popped. -/
def itemIndex (l : List Item) (reqId : Nat) : Int :=
  match l.findIdx? (fun it => it.id == reqId) with
  | some i => (i : Int)
  | none => -1

/-- Translation of the guarded removal appearing both in RoundTrip's
error path and in bodyCloser.Close: if item.Index != -1 then
heap.Remove(&t.pq, item.Index); the Index != -1 test is the match on
findIdx?. -/
def removeIfPresent (l : List Item) (reqId : Nat) : List Item :=
  match l.findIdx? (fun it => it.id == reqId) with
  | some i => pqRemove l i
  | none => l

/-- Translation of bodyCloser.Close (httpcontrol.go): the inner body's
Close error is returned to the caller unchanged, and the deadline item of
the exchange is removed from the queue when its handle is still live. -/
def bodyCloserClose (q : List Item) (itemId : Nat) : List Item :=
  removeIfPresent q itemId

theorem mem_of_mem_swapSlots {x : Item} {l : List Item} {i j : Nat}
    (h : x ∈ swapSlots l i j) : x ∈ l := by
  unfold swapSlots at h
  rcases hi : l.get? i with _ | a <;> rcases hj : l.get? j with _ | b <;>
    simp only [hi, hj] at h
  · exact h
  · exact h
  · exact h
  · rcases List.mem_or_eq_of_mem_set h with h1 | rfl
    · rcases List.mem_or_eq_of_mem_set h1 with h2 | rfl
      · exact h2
      · exact List.get?_mem hj
    · exact List.get?_mem hi

theorem mem_of_mem_siftUp {x : Item} {fuel : Nat} :
    ∀ {l : List Item} {j : Nat}, x ∈ siftUp l j fuel → x ∈ l := by
  induction fuel with
  | zero => intro l j h; exact h
  | succ fuel ih =>
    intro l j h
    unfold siftUp at h
    dsimp only at h
    repeat' split at h
    all_goals first
      | exact h
      | exact mem_of_mem_swapSlots (ih h)

theorem mem_of_mem_siftDown {x : Item} {fuel : Nat} :
    ∀ {l : List Item} {i : Nat}, x ∈ siftDown l i fuel → x ∈ l := by
  induction fuel with
  | zero => intro l i h; exact h
  | succ fuel ih =>
    intro l i h
    unfold siftDown at h
    dsimp only at h
    repeat' split at h
    all_goals first
      | exact h
      | exact mem_of_mem_swapSlots (ih h)

theorem mem_of_mem_dropLast {x : Item} {l : List Item}
    (h : x ∈ l.dropLast) : x ∈ l := by
  rw [List.dropLast_eq_take] at h
  exact List.take_subset _ _ h

theorem idNodup_pos_inj {l : List Item} (hnd : (l.map Item.id).Nodup)
    {i j : Nat} (hi : i < l.length) (hj : j < l.length)
    (h : (l.get ⟨i, hi⟩).id = (l.get ⟨j, hj⟩).id) : i = j := by
  have hi' : i < (l.map Item.id).length := by simpa using hi
  have hj' : j < (l.map Item.id).length := by simpa using hj
  have hm : (l.map Item.id).get ⟨i, hi'⟩ = (l.map Item.id).get ⟨j, hj'⟩ := by
    simpa using h
  have := (List.Nodup.get_inj_iff hnd).mp hm
  simpa using this


theorem swapSlots_eq {l : List Item} {i j : Nat} (hi : i < l.length)
    (hj : j < l.length) :
    swapSlots l i j = (l.set i (l.get ⟨j, hj⟩)).set j (l.get ⟨i, hi⟩) := by
  unfold swapSlots
  rw [List.get?_eq_get hi, List.get?_eq_get hj]

theorem noId_of_mem_take {ll : List Item} {t m : Nat}
    (hno : ∀ j (hj : j < ll.length), j < m → (ll.get ⟨j, hj⟩).id ≠ t) :
    ∀ x ∈ ll.take m, x.id ≠ t := by
  intro x hx
  obtain ⟨j, hj, hjx⟩ := List.getElem_of_mem hx
  have hjm : j < m := by
    have := hj
    simp [List.length_take] at this
    omega
  have hjl : j < ll.length := by
    have := hj
    simp [List.length_take] at this
    omega
  have hget : (ll.take m)[j] = ll.get ⟨j, hjl⟩ := by
    simp [List.getElem_take]
  rw [hget] at hjx
  rw [← hjx]
  exact hno j hjl hjm

theorem pqRemove_no_id {l : List Item} (hnd : (l.map Item.id).Nodup)
    {i : Nat} (hi : i < l.length) :
    ∀ x ∈ pqRemove l i, x.id ≠ (l.get ⟨i, hi⟩).id := by
  unfold pqRemove
  dsimp only
  by_cases hlast : i = l.length - 1
  · rw [if_pos hlast, List.dropLast_eq_take]
    refine noId_of_mem_take ?_
    intro j hj hjm heq
    have : j = i := idNodup_pos_inj hnd hj hi heq
    omega
  · rw [if_neg hlast]
    have hn : l.length - 1 < l.length := by omega
    have hin : i < l.length - 1 := by omega
    have hbase : ∀ x ∈ (swapSlots l i (l.length - 1)).dropLast,
        x.id ≠ (l.get ⟨i, hi⟩).id := by
      rw [swapSlots_eq hi hn, List.dropLast_eq_take]
      have hlen2 : ((l.set i (l.get ⟨l.length - 1, hn⟩)).set (l.length - 1)
          (l.get ⟨i, hi⟩)).length = l.length := by
        simp [List.length_set]
      rw [hlen2]
      refine noId_of_mem_take ?_
      intro j hj hjm heq
      rw [hlen2] at hj
      have hjne : l.length - 1 ≠ j := by omega
      have hg1 : ((l.set i (l.get ⟨l.length - 1, hn⟩)).set (l.length - 1)
            (l.get ⟨i, hi⟩)).get ⟨j, by rw [hlen2]; exact hj⟩ =
          (l.set i (l.get ⟨l.length - 1, hn⟩)).get ⟨j, by simp [List.length_set]; exact hj⟩ := by
        simp [List.get_eq_getElem, List.getElem_set_ne hjne]
      rw [hg1] at heq
      by_cases hij : i = j
      · subst hij
        have hg2 : (l.set i (l.get ⟨l.length - 1, hn⟩)).get
            ⟨i, by simp [List.length_set]; exact hj⟩ = l.get ⟨l.length - 1, hn⟩ := by
          simp [List.get_eq_getElem, List.getElem_set]
        rw [hg2] at heq
        have : l.length - 1 = i := idNodup_pos_inj hnd hn hi heq
        omega
      · have hg3 : (l.set i (l.get ⟨l.length - 1, hn⟩)).get
            ⟨j, by simp [List.length_set]; exact hj⟩ = l.get ⟨j, hj⟩ := by
          simp [List.get_eq_getElem, List.getElem_set_ne hij]
        rw [hg3] at heq
        have : j = i := idNodup_pos_inj hnd hj hi heq
        omega
    intro x hx
    split at hx
    · exact hbase x (mem_of_mem_siftUp hx)
    · exact hbase x (mem_of_mem_siftDown hx)

theorem removeIfPresent_no_id {q : List Item} {reqId : Nat}
    (hnd : (q.map Item.id).Nodup) (hlive : itemIndex q reqId ≠ -1) :
    ∀ x ∈ removeIfPresent q reqId, x.id ≠ reqId := by
  unfold removeIfPresent
  unfold itemIndex at hlive
  cases hf : q.findIdx? (fun it => it.id == reqId) with
  | none => rw [hf] at hlive; simp at hlive
  | some i =>
    obtain ⟨hlen, hp, _⟩ := List.findIdx?_eq_some_iff_getElem.mp hf
    have hid : (q.get ⟨i, hlen⟩).id = reqId := by
      simpa using hp
    intro x hx
    rw [← hid]
    exact pqRemove_no_id hnd hlen x hx

/-- C6: closing the wrapped response body removes the exchange's
still-registered deadline entry from the queue (under the invariant that
live entries have pairwise distinct request identities), and the removal
is idempotent: when the entry's handle is already consumed (Index -1,
e.g. after eviction) the close leaves the queue exactly unchanged and
hence uncorrupted. -/
theorem bodyClose_removes_entry_and_noop_when_consumed (q : List Item)
    (reqId : Nat) :
    ((q.map Item.id).Nodup → itemIndex q reqId ≠ -1 →
      ∀ x ∈ bodyCloserClose q reqId, x.id ≠ reqId)
    ∧ (itemIndex q reqId = -1 → bodyCloserClose q reqId = q) := by
  constructor
  · intro hnd hlive
    exact removeIfPresent_no_id hnd hlive
  · intro hdead
    unfold bodyCloserClose removeIfPresent
    unfold itemIndex at hdead
    cases hf : q.findIdx? (fun it => it.id == reqId) with
    | none => rfl
    | some i => rw [hf] at hdead; simp at hdead

/-- Witness for C6 at concrete queues: a two-entry queue from which body
close removes entry 5, and a queue whose handle for 5 is already consumed,
left unchanged. -/
theorem bodyClose_removes_entry_and_noop_when_consumed_witness :
    (∀ x ∈ bodyCloserClose [⟨5, 10⟩, ⟨6, 20⟩] 5, x.id ≠ 5)
    ∧ bodyCloserClose [⟨6, 20⟩] 5 = [⟨6, 20⟩] :=
  ⟨(bodyClose_removes_entry_and_noop_when_consumed [⟨5, 10⟩, ⟨6, 20⟩] 5).1
      (by decide) (by decide),
   (bodyClose_removes_entry_and_noop_when_consumed [⟨6, 20⟩] 5).2 (by decide)⟩

/-- Observable outcome of Transport.RoundTrip: the pair returned to the
caller, the underlying attempt count and the stats-sink invocations of the
logical exchange, the deadline queue after the call returns, and whether
the returned body was wrapped in a bodyCloser. -/
structure RTResult where
  resp : Option Response
  err : Option GoErr
  attempts : Nat
  events : List RetryEvent
  queue : List Item
  wrappedBody : Bool
deriving DecidableEq, Repr

/-- Translation of Transport.RoundTrip (httpcontrol.go): push a deadline
item for the request, run tries from attempt 0; when tries returns an
error, remove the item if its handle is still live and return (nil, err);
on success wrap the response body in a bodyCloser and return it. The
stats sink is invoked only inside tries, immediately before retries;
RoundTrip itself emits nothing to the sink on either path. -/
def roundTrip (cfg : TransportCfg) (exch : Nat → Exchange) (req : Request)
    (q : List Item) (itemId : Nat) (deadline : Int) : RTResult :=
  let q1 := heapPush q ⟨itemId, deadline⟩
  let r := tries cfg exch req 0
  match r.err with
  | some e => ⟨none, some e, r.attempts, r.events, removeIfPresent q1 itemId, false⟩
  | none => ⟨r.resp, none, r.attempts, r.events, q1, true⟩

/-- C9: whenever RoundTrip returns a non-nil error it returns a nil
response: a response produced alongside the final underlying error is
discarded, never delivered. -/
theorem roundTrip_error_gives_nil_response (cfg : TransportCfg)
    (exch : Nat → Exchange) (req : Request) (q : List Item) (itemId : Nat)
    (deadline : Int)
    (h : (roundTrip cfg exch req q itemId deadline).err.isSome = true) :
    (roundTrip cfg exch req q itemId deadline).resp = none := by
  unfold roundTrip at *
  dsimp only at *
  cases hf : (tries cfg exch req 0).err with
  | none => rw [hf] at h; simp at h
  | some e => rfl

/-- Witness for C9: a POST whose single underlying exchange produces both
a response and an error; RoundTrip surfaces the error with a nil
response. -/
theorem roundTrip_error_gives_nil_response_witness :
    (roundTrip ⟨0, false⟩ (fun _ => ⟨some ⟨500, 1⟩, some connRefusedErr⟩)
        ⟨"POST"⟩ [] 1 0).err.isSome = true
    ∧ (roundTrip ⟨0, false⟩ (fun _ => ⟨some ⟨500, 1⟩, some connRefusedErr⟩)
        ⟨"POST"⟩ [] 1 0).resp = none :=
  ⟨by decide,
   roundTrip_error_gives_nil_response ⟨0, false⟩
     (fun _ => ⟨some ⟨500, 1⟩, some connRefusedErr⟩) ⟨"POST"⟩ [] 1 0 (by decide)⟩

theorem tries_maxtries_zero (s : Bool) (exch : Nat → Exchange) (req : Request) :
    tries ⟨0, s⟩ exch req 0 = ⟨(exch 0).resp, (exch 0).err, 1, []⟩ := by
  unfold tries
  cases h : (exch 0).err with
  | none => rw [show (0 : Nat) + 1 - 0 = 0 + 1 from rfl,
      triesAux_none 0 s exch req 0 0 h]
  | some e => rw [show (0 : Nat) + 1 - 0 = 0 + 1 from rfl,
      triesAux_stop 0 s exch req 0 0 e h (fun hc => absurd hc.1 (by omega))]

/-- C10: with MaxTries left at its zero default, every logical exchange
performs exactly one underlying exchange, surfaces its error (whatever
the method or classification) unchanged, and never invokes the stats
sink. -/
theorem default_maxtries_single_attempt (hasStats : Bool)
    (exch : Nat → Exchange) (req : Request) (q : List Item) (itemId : Nat)
    (deadline : Int) :
    (roundTrip ⟨0, hasStats⟩ exch req q itemId deadline).attempts = 1
    ∧ (roundTrip ⟨0, hasStats⟩ exch req q itemId deadline).events = []
    ∧ (roundTrip ⟨0, hasStats⟩ exch req q itemId deadline).err = (exch 0).err := by
  unfold roundTrip
  rw [tries_maxtries_zero]
  dsimp only
  cases h : (exch 0).err with
  | none => exact ⟨rfl, rfl, rfl⟩
  | some e => exact ⟨rfl, rfl, rfl⟩

/-- C4, evaluated at the failing input (a GET whose only exchange fails
with a connection-refused error, MaxTries 0, stats sink configured): the
error is surfaced unchanged and the deadline entry is removed before
returning, but the stats sink receives no invocation at all for the
failed logical exchange — there is no terminal stats record, because the
sink's only entry point, Stats.Retry, is called solely before retries. -/
theorem roundTrip_terminal_failure_emits_no_stats_record :
    (roundTrip ⟨0, true⟩ (fun _ => ⟨none, some connRefusedErr⟩)
        ⟨"GET"⟩ [] 7 100).err = some connRefusedErr
    ∧ itemIndex (roundTrip ⟨0, true⟩ (fun _ => ⟨none, some connRefusedErr⟩)
        ⟨"GET"⟩ [] 7 100).queue 7 = -1
    ∧ (roundTrip ⟨0, true⟩ (fun _ => ⟨none, some connRefusedErr⟩)
        ⟨"GET"⟩ [] 7 100).events = [] :=
  ⟨by decide, by decide, by decide⟩

/-- Translation of ExpBackoff (retry.go): it sleeps
time.Second * time.Duration(math.Exp2(2)), i.e. 2 ^ 2 seconds, whatever
the attempt index passed to it. -/
def expBackoffSeconds (tryCount : Nat) : Nat := 2 ^ 2

/-- Translation of LinearBackoff (retry.go): sleeps try seconds. -/
def linearBackoffSeconds (tryCount : Nat) : Nat := tryCount

/-- Translation of NoWait (retry.go): no sleep at all. -/
def noWaitSeconds (tryCount : Nat) : Nat := 0

/-- C7, evaluated on the code: the no-wait strategy waits zero seconds and
the linear strategy waits attemptIndex seconds as claimed, but the
exponential strategy waits the constant 2 ^ 2 = 4 seconds for every
attempt index — its delay does not grow with the attempt index. -/
theorem backoff_delays_nowait_linear_but_constant_exp :
    (∀ t, noWaitSeconds t = 0)
    ∧ (∀ t, linearBackoffSeconds t = t)
    ∧ (∀ t, expBackoffSeconds t = 4)
    ∧ ¬ StrictMono expBackoffSeconds :=
  ⟨fun _ => rfl, fun _ => rfl, fun _ => rfl,
   fun hmono => by
    have h := hmono (show (0 : Nat) < 1 by omega)
    simp [expBackoffSeconds] at h⟩

/-- Control point of the caller executing Transport.Close: about to send
on closeMonitor, blocked on the acknowledging receive, or returned. -/
inductive CloseState where
  | sending
  | awaitingAck
  | returned
deriving DecidableEq, Repr

/-- Control point of the monitor goroutine: looping in its select
(handling ticker ticks), just received the stop signal, executed
ticker.Stop(), or closed the channel and returned. -/
inductive MonState where
  | selecting
  | gotStop
  | tickerStopped
  | terminated
deriving DecidableEq, Repr

/-- Joint state of the Close/monitor shutdown handshake
(httpcontrol.go): both control points, whether the ticker is still
active, and whether closeMonitor has been closed. -/
structure ShutdownState where
  closer : CloseState
  mon : MonState
  tickerActive : Bool
  chClosed : Bool
deriving DecidableEq, Repr

/-- State at the moment Close is invoked on a started Transport. -/
def shutdownInit : ShutdownState := ⟨.sending, .selecting, true, false⟩

/-- Interleaving semantics of Close and the monitor goroutine. tick: the
monitor serves a ticker tick and returns to its select. handshake: the
unbuffered send closeMonitor <- true inside Close completes jointly with
the monitor's receive in its select. stopTicker: the monitor executes
ticker.Stop(). closeChannel: the monitor executes close(t.closeMonitor)
and returns. ackClose: the receive <-t.closeMonitor in Close completes —
possible only once the channel is closed, since nothing else ever sends
on it — and Close returns. -/
inductive ShutdownStep : ShutdownState → ShutdownState → Prop
  | tick (c : CloseState) (tk ch : Bool) :
      ShutdownStep ⟨c, .selecting, tk, ch⟩ ⟨c, .selecting, tk, ch⟩
  | handshake (tk ch : Bool) :
      ShutdownStep ⟨.sending, .selecting, tk, ch⟩ ⟨.awaitingAck, .gotStop, tk, ch⟩
  | stopTicker (c : CloseState) (tk ch : Bool) :
      ShutdownStep ⟨c, .gotStop, tk, ch⟩ ⟨c, .tickerStopped, false, ch⟩
  | closeChannel (c : CloseState) (tk : Bool) :
      ShutdownStep ⟨c, .tickerStopped, tk, false⟩ ⟨c, .terminated, tk, true⟩
  | ackClose (m : MonState) (tk : Bool) :
      ShutdownStep ⟨.awaitingAck, m, tk, true⟩ ⟨.returned, m, tk, true⟩

/-- States reachable from the start of the shutdown handshake. -/
inductive ShutdownReachable : ShutdownState → Prop
  | init : ShutdownReachable shutdownInit
  | step {s s2 : ShutdownState} : ShutdownReachable s → ShutdownStep s s2 →
      ShutdownReachable s2

theorem shutdown_invariant {s : ShutdownState} (h : ShutdownReachable s) :
    (s.closer = CloseState.returned → s.chClosed = true)
    ∧ (s.chClosed = true → s.mon = MonState.terminated)
    ∧ ((s.mon = MonState.tickerStopped ∨ s.mon = MonState.terminated) →
        s.tickerActive = false) := by
  induction h with
  | init =>
    refine ⟨fun hc => ?_, fun hc => ?_, fun hc => ?_⟩ <;> simp [shutdownInit] at hc ⊢
  | step hr hs ih =>
    cases hs with
    | tick c tk ch => exact ih
    | handshake tk ch =>
      obtain ⟨ih1, ih2, ih3⟩ := ih
      refine ⟨fun hc => by simp at hc, fun hc => ?_, fun hc => ?_⟩
      · have := ih2 hc
        simp at this
      · simp at hc
    | stopTicker c tk ch =>
      obtain ⟨ih1, ih2, ih3⟩ := ih
      refine ⟨fun hc => ?_, fun hc => ?_, fun hc => rfl⟩
      · have hch := ih1 hc
        have := ih2 hch
        simp at this
      · have := ih2 hc
        simp at this
    | closeChannel c tk =>
      obtain ⟨ih1, ih2, ih3⟩ := ih
      refine ⟨fun hc => rfl, fun hc => rfl, fun hc => ?_⟩
      · exact ih3 (Or.inl rfl)
    | ackClose m tk =>
      obtain ⟨ih1, ih2, ih3⟩ := ih
      exact ⟨fun hc => rfl, ih2, ih3⟩

/-- C8: in every reachable state of the shutdown handshake in which Close
has returned, the monitor has terminated and its ticker is stopped:
Close's blocking receive can complete only after the monitor acknowledges
the stop signal by closing the channel, so no background monitoring task
survives Close. -/
theorem close_returns_only_after_monitor_terminated {s : ShutdownState}
    (h : ShutdownReachable s) (hdone : s.closer = CloseState.returned) :
    s.mon = MonState.terminated ∧ s.tickerActive = false := by
  obtain ⟨h1, h2, h3⟩ := shutdown_invariant h
  have hch := h1 hdone
  have hm := h2 hch
  exact ⟨hm, h3 (Or.inr hm)⟩

/-- Witness for C8: the canonical shutdown trace reaches the state where
Close has returned, and there the monitor is terminated with its ticker
stopped. -/
theorem close_returns_only_after_monitor_terminated_witness :
    (⟨CloseState.returned, MonState.terminated, false, true⟩ :
        ShutdownState).mon = MonState.terminated
    ∧ (⟨CloseState.returned, MonState.terminated, false, true⟩ :
        ShutdownState).tickerActive = false :=
  close_returns_only_after_monitor_terminated
    (ShutdownReachable.init.step (ShutdownStep.handshake true false)
      |>.step (ShutdownStep.stopTicker CloseState.awaitingAck true false)
      |>.step (ShutdownStep.closeChannel CloseState.awaitingAck false)
      |>.step (ShutdownStep.ackClose MonState.terminated false))
    rfl

/-- Witness for C2: a GET whose first exchange returns a 502 response and
no error performs exactly one exchange and hands the response back
unmodified. -/
theorem retry_iff_error_get_undermax_transient_witness :
    tries ⟨3, false⟩ (fun _ => ⟨some ⟨502, 0⟩, none⟩) ⟨"GET"⟩ 0 =
      ⟨some ⟨502, 0⟩, none, 1, []⟩ :=
  (retry_iff_error_get_undermax_transient ⟨3, false⟩
    (fun _ => ⟨some ⟨502, 0⟩, none⟩) ⟨"GET"⟩ 0).2 rfl
